import Mathlib

/-!
Verification development for the interactive git status TUI
(`src/igs.py`, together with its earlier variant `src/git-tui.py`).

The Python source is shallowly embedded: every definition below transcribes
one function (or one self-contained fragment) of the source.  The cursor is
modelled as `Int` because Python integers are unbounded and the code can in
fact drive the cursor negative; Python's negative-index list access is
modelled by `pyGet`.  Operations whose Python counterpart can raise an
`IndexError` return `Option`, with `none` marking the exception.
-/

namespace IGS

/-- Embeds class `GitFile` of `igs.py` (status string, path, staged flag). -/
structure GitFile where
  status : String
  path : String
  staged : Bool
deriving DecidableEq, Repr

/-- Embeds `GitFile.key`: the identity key `(path, staged)`. -/
def GitFile.key (f : GitFile) : String × Bool := (f.path, f.staged)

/-- Embeds `GitTUI._status_char_to_name` (a dict lookup with default
`'modified'`; the keys are pairwise distinct so an if-chain is faithful). -/
def statusCharToName (c : Char) : String :=
  if c = 'M' then "modified"
  else if c = 'A' then "new file"
  else if c = 'D' then "deleted"
  else if c = 'R' then "renamed"
  else if c = 'C' then "copied"
  else if c = 'U' then "updated"
  else if c = '?' then "untracked"
  else "modified"

/-- Embeds the rename handling in `parse_git_status`:
`if ' -> ' in path: path = path.split(' -> ')[-1]`. -/
def lastArrowComponent (path : String) : String :=
  if (path.splitOn " -> ").length > 1 then (path.splitOn " -> ").getLastD path
  else path

/-- Embeds the per-line body of `GitTUI.parse_git_status` (igs.py lines
207-232).  A line shorter than 3 characters is skipped; `x` is the staged
column, `y` the unstaged column, the path starts at character 3. -/
def parseLine (cs : List Char) : List GitFile :=
  match cs with
  | x :: y :: _ :: rest =>
    let path := lastArrowComponent (String.mk rest)
    (if x ≠ ' ' ∧ x ≠ '?' then [GitFile.mk (statusCharToName x) path true] else []) ++
    (if y ≠ ' ' ∨ x = '?' then
      [GitFile.mk (if x = '?' then "untracked" else statusCharToName y) path false] else [])
  | _ => []

/-- Embeds the success path of `GitTUI.parse_git_status`: reset `files`,
early-return on whitespace-only output, else split on newlines and parse
each line. -/
def parseStatusOutput (stdout : String) : List GitFile :=
  if stdout.trim = "" then []
  else ((stdout.splitOn "\n").map (fun line => parseLine line.toList)).flatten

/-- A record list is well formed when no record is simultaneously staged and
`untracked` — the shape `parse_git_status` always produces (claim C10). -/
def WellFormed (files : List GitFile) : Prop :=
  ∀ f ∈ files, ¬(f.staged = true ∧ f.status = "untracked")

/-- Embeds `GitTUI._get_ordered_files` (identical in both scripts):
staged files, then unstaged tracked files, then untracked files. -/
def getOrderedFiles (files : List GitFile) : List GitFile :=
  (files.filter fun f => f.staged) ++
  (files.filter fun f => !f.staged && f.status != "untracked") ++
  (files.filter fun f => f.status == "untracked")

/-- Modelled from the spec (section 4.1, step 1): partition the records into
the three groups in one stable pass, preserving insertion order within each
group.  This is the comparison point for the refinement claim C7; the
source-side definition is `getOrderedFiles`. -/
def partitionGroups : List GitFile → List GitFile × List GitFile × List GitFile
  | [] => ([], [], [])
  | f :: fs =>
    let (s, u, t) := partitionGroups fs
    if f.staged then (f :: s, u, t)
    else if f.status ≠ "untracked" then (s, f :: u, t)
    else (s, u, f :: t)

/-- Modelled from the spec (section 4.1, step 1): concatenate the three
groups in order staged, unstaged-tracked, untracked. -/
def orderedFilesSpec (files : List GitFile) : List GitFile :=
  (partitionGroups files).1 ++ (partitionGroups files).2.1 ++ (partitionGroups files).2.2

lemma statusCharToName_ne_untracked {c : Char} (hc : c ≠ '?') :
    statusCharToName c ≠ "untracked" := by
  unfold statusCharToName
  repeat' split
  all_goals first
    | decide
    | exact absurd (by assumption) hc

lemma parseLine_wf (cs : List Char) : WellFormed (parseLine cs) := by
  intro f hf
  unfold parseLine at hf
  match cs with
  | [] => simp at hf
  | [_] => simp at hf
  | [_, _] => simp at hf
  | x :: y :: z :: rest =>
    simp only [List.mem_append] at hf
    rcases hf with hf | hf
    · split at hf
      · rename_i hx
        simp only [List.mem_singleton] at hf
        subst hf
        rintro ⟨-, hstat⟩
        exact statusCharToName_ne_untracked hx.2 hstat
      · simp at hf
    · split at hf
      · simp only [List.mem_singleton] at hf
        subst hf
        rintro ⟨hstaged, -⟩
        simp at hstaged
      · simp at hf

lemma parseStatusOutput_wf (out : String) : WellFormed (parseStatusOutput out) := by
  intro f hf
  unfold parseStatusOutput at hf
  split at hf
  · simp at hf
  · simp only [List.mem_flatten, List.mem_map] at hf
    obtain ⟨l, ⟨line, _, rfl⟩, hfl⟩ := hf
    exact parseLine_wf line.toList f hfl

lemma getOrderedFiles_perm {files : List GitFile} (h : WellFormed files) :
    (getOrderedFiles files).Perm files := by
  induction files with
  | nil => simp [getOrderedFiles]
  | cons f fs ih =>
    have hf := h f (List.mem_cons_self f fs)
    have hfs : WellFormed fs := fun g hg => h g (List.mem_cons_of_mem f hg)
    have ihp := ih hfs
    unfold getOrderedFiles at ihp ⊢
    by_cases hstaged : f.staged = true
    · have huntr : (f.status == "untracked") = false := by
        rcases hst : f.status == "untracked" with _ | _
        · rfl
        · exact absurd ⟨hstaged, by simpa using hst⟩ hf
      simp only [List.filter_cons, hstaged, huntr, Bool.not_true, Bool.false_and,
        if_true, if_false, Bool.true_and, if_pos, Bool.false_eq_true, List.cons_append]
      exact ihp.cons f
    · have hstaged' : f.staged = false := by simpa using hstaged
      by_cases huntr : (f.status == "untracked") = true
      · have hne : (f.status != "untracked") = false := by
          simp only [bne]; simp [huntr]
        simp only [List.filter_cons, hstaged', huntr, hne, Bool.not_false, Bool.true_and,
          Bool.false_eq_true, if_false, if_true]
        exact List.perm_middle.trans (ihp.cons f)
      · have huntr' : (f.status == "untracked") = false := by simpa using huntr
        have hne : (f.status != "untracked") = true := by
          simp only [bne]; simp [huntr']
        simp only [List.filter_cons, hstaged', huntr', hne, Bool.not_false, Bool.true_and,
          Bool.false_eq_true, if_false, if_true]
        have hmid : (List.filter (fun g => g.staged) fs ++
              f :: List.filter (fun g => !g.staged && g.status != "untracked") fs).Perm
            (f :: (List.filter (fun g => g.staged) fs ++
              List.filter (fun g => !g.staged && g.status != "untracked") fs)) :=
          List.perm_middle
        refine ((hmid.append_right _).trans ?_)
        exact (ihp.cons f)

/-! Cursor movement and mutation operations (igs.py `_handle_list_input`,
`_toggle_stage_current_file`, `_refresh_status`, `_stage_all`,
`_discard_current_file`, `show_commit_dialog`).  The cursor is an `Int`;
the git side effects are abstracted by passing the record list that
`parse_git_status` derives afterwards (`newFiles`). -/

/-- Embeds Python list subscription `l[i]`: non-negative indices from the
front, negative indices from the back, `none` for an `IndexError`. -/
def pyGet (l : List GitFile) (i : Int) : Option GitFile :=
  if 0 ≤ i then l.get? i.toNat
  else if (-i) ≤ (l.length : Int) then l.get? (l.length - (-i).toNat)
  else none

/-- Embeds the `KEY_UP` branch of `_handle_list_input`. -/
def cursorUp (c : Int) : Int :=
  if 0 < c then c - 1 else c

/-- Embeds the `KEY_DOWN` branch of `_handle_list_input` (`n` is
`len(self.files)`). -/
def cursorDown (n : Nat) (c : Int) : Int :=
  if c < (n : Int) - 1 then c + 1 else c

/-- Embeds the `KEY_PPAGE` branch of `_handle_list_input` (`page` is
`height - 4`). -/
def pageUp (page c : Int) : Int :=
  max 0 (c - page)

/-- Embeds the `KEY_NPAGE` branch of `_handle_list_input` (`n` is
`len(self.files)`, `page` is `height - 4`). -/
def pageDown (n : Nat) (page c : Int) : Int :=
  min ((n : Int) - 1) (c + page)

/-- Embeds the tail of `_toggle_stage_current_file` after `parse_git_status`:
empty list resets the cursor, otherwise the remembered next-file key is
looked up, falling back to clamping against the new last index. -/
def toggleFinish (c : Int) (newOrdered : List GitFile) (nextKey : Option (String × Bool)) : Int :=
  if newOrdered.length = 0 then 0
  else
    match nextKey with
    | some k =>
      match newOrdered.findIdx? (fun f => f.key == k) with
      | some i => (i : Int)
      | none => min c ((newOrdered.length : Int) - 1)
    | none => min c ((newOrdered.length : Int) - 1)

/-- Embeds `GitTUI._toggle_stage_current_file` (igs.py lines 664-697):
returns the record list and cursor after the toggle, `none` when Python
would raise an `IndexError`.  `newFiles` stands for the list that
`parse_git_status` derives after the stage/unstage command. -/
def toggleStage (files : List GitFile) (c : Int) (newFiles : List GitFile) :
    Option (List GitFile × Int) :=
  let ordered := getOrderedFiles files
  if (ordered.length : Int) ≤ c then some (files, c)
  else
    match pyGet ordered c with
    | none => none
    | some _ =>
      if c + 1 < (ordered.length : Int) then
        match pyGet ordered (c + 1) with
        | none => none
        | some nf => some (newFiles, toggleFinish c (getOrderedFiles newFiles) (some nf.key))
      else some (newFiles, toggleFinish c (getOrderedFiles newFiles) none)

/-- Embeds `GitTUI._refresh_status` (igs.py lines 776-795, identical in
git-tui.py lines 512-531): remember the selected record's key, re-derive the
list, then re-anchor the cursor on the first record with the old key, else
clamp. -/
def refreshStatus (files : List GitFile) (c : Int) (newFiles : List GitFile) :
    Option (List GitFile × Int) :=
  let oldFiles := getOrderedFiles files
  if c < (oldFiles.length : Int) then
    match pyGet oldFiles c with
    | none => none
    | some f =>
      let ordered := getOrderedFiles newFiles
      match ordered.findIdx? (fun g => g.key == f.key) with
      | some i => some (newFiles, (i : Int))
      | none => some (newFiles, max 0 (min c ((ordered.length : Int) - 1)))
  else some (newFiles, 0)

/-- Embeds `GitTUI._stage_all` (igs.py): nothing happens when no tracked
unstaged file exists; otherwise the list is re-derived and the cursor reset
to 0. -/
def stageAll (files : List GitFile) (c : Int) (newFiles : List GitFile) :
    List GitFile × Int :=
  if (files.filter fun f => !f.staged && f.status != "untracked").isEmpty then (files, c)
  else (newFiles, 0)

/-- Embeds `GitTUI._discard_current_file` (igs.py): early returns for an
out-of-range cursor, a staged or untracked selection, or a declined
confirmation; otherwise re-derive and clamp. -/
def discardCurrent (files : List GitFile) (c : Int) (confirmed : Bool)
    (newFiles : List GitFile) : Option (List GitFile × Int) :=
  let ordered := getOrderedFiles files
  if (ordered.length : Int) ≤ c then some (files, c)
  else
    match pyGet ordered c with
    | none => none
    | some file =>
      if file.staged then some (files, c)
      else if file.status == "untracked" then some (files, c)
      else if !confirmed then some (files, c)
      else
        let ordered2 := getOrderedFiles newFiles
        if ordered2.length = 0 then some (newFiles, 0)
        else some (newFiles, min c ((ordered2.length : Int) - 1))

/-- Embeds `GitTUI.show_commit_dialog` (igs.py): nothing staged, an editor
failure, an empty message or a failed `git commit` leave the model alone; a
successful commit re-derives the list and resets the cursor. -/
def commitAction (files : List GitFile) (c : Int) (editorOk : Bool) (msg : String)
    (rc : Int) (newFiles : List GitFile) : List GitFile × Int :=
  if (files.filter fun f => f.staged).isEmpty then (files, c)
  else if !editorOk then (files, c)
  else if msg = "" then (files, c)
  else if rc = 0 then (newFiles, 0)
  else (files, c)

/-- The cursor invariant of the spec (section 3): in range on a non-empty
record list, pinned to 0 on an empty one. -/
def cursorInv (files : List GitFile) (c : Int) : Prop :=
  if files.length = 0 then c = 0 else 0 ≤ c ∧ c < (files.length : Int)

lemma pyGet_natCast (l : List GitFile) (n : Nat) : pyGet l (n : Int) = l.get? n := by
  unfold pyGet
  rw [if_pos (Int.natCast_nonneg n)]
  simp

lemma pyGet_valid {l : List GitFile} {n : Nat} (hn : n < l.length) :
    pyGet l (n : Int) = some (l.get ⟨n, hn⟩) := by
  rw [pyGet_natCast, List.get?_eq_get hn]

lemma getOrdered_length_eq {files : List GitFile} (h : WellFormed files) :
    (getOrderedFiles files).length = files.length :=
  (getOrderedFiles_perm h).length_eq

lemma findIdx?_key_of_first {l : List GitFile} {k : String × Bool} {i : Nat}
    (hi : i < l.length) (hk : (l.get ⟨i, hi⟩).key = k)
    (hmin : ∀ j (hj : j < i), (l.get ⟨j, hj.trans hi⟩).key ≠ k) :
    l.findIdx? (fun g => g.key == k) = some i := by
  rw [List.findIdx?_eq_some_iff_getElem]
  refine ⟨hi, ?_, ?_⟩
  · simpa [List.get_eq_getElem] using hk
  · intro j hj
    have := hmin j hj
    simpa [List.get_eq_getElem] using this

lemma findIdx?_key_of_absent {l : List GitFile} {k : String × Bool}
    (h : ∀ g ∈ l, g.key ≠ k) :
    l.findIdx? (fun g => g.key == k) = none := by
  rw [List.findIdx?_eq_none_iff]
  intro g hg
  simpa using h g hg

/-- Claim C1: after `_refresh_status`, if the old cursor's identity key
occurs in the new flattened sequence the cursor moves to the first position
carrying that key; otherwise it becomes `min(old_cursor, len(new_records)-1)`
floored at 0; an empty new list resets it to 0.  `newFiles` ranges over
well-formed record lists, the shape `parse_git_status` produces. -/
theorem claim_C1_refresh_anchor (files newFiles : List GitFile) (cn : Nat)
    (hWF : WellFormed newFiles)
    (hn : cn < (getOrderedFiles files).length) :
    (∀ i (hi : i < (getOrderedFiles newFiles).length),
        ((getOrderedFiles newFiles).get ⟨i, hi⟩).key =
            ((getOrderedFiles files).get ⟨cn, hn⟩).key →
        (∀ j (hj : j < i), ((getOrderedFiles newFiles).get ⟨j, hj.trans hi⟩).key ≠
            ((getOrderedFiles files).get ⟨cn, hn⟩).key) →
        refreshStatus files (cn : Int) newFiles = some (newFiles, (i : Int))) ∧
    ((∀ g ∈ getOrderedFiles newFiles,
        g.key ≠ ((getOrderedFiles files).get ⟨cn, hn⟩).key) →
        refreshStatus files (cn : Int) newFiles =
          some (newFiles, max 0 (min (cn : Int) ((newFiles.length : Int) - 1)))) ∧
    (newFiles = [] → refreshStatus files (cn : Int) newFiles = some ([], 0)) := by
  have hlt : (cn : Int) < ((getOrderedFiles files).length : Int) := by
    exact_mod_cast hn
  have hred : refreshStatus files (cn : Int) newFiles =
      (match (getOrderedFiles newFiles).findIdx?
          (fun g => g.key == ((getOrderedFiles files).get ⟨cn, hn⟩).key) with
        | some i => some (newFiles, (i : Int))
        | none => some (newFiles,
            max 0 (min (cn : Int) (((getOrderedFiles newFiles).length : Int) - 1)))) := by
    unfold refreshStatus
    rw [if_pos hlt, pyGet_valid hn]
  refine ⟨?_, ?_, ?_⟩
  · intro i hi hk hmin
    rw [hred, findIdx?_key_of_first hi hk hmin]
  · intro habs
    rw [hred, findIdx?_key_of_absent habs, getOrdered_length_eq hWF]
  · intro hempty
    subst hempty
    rw [hred]
    simp only [getOrderedFiles, List.filter_nil, List.append_nil, List.findIdx?_nil,
      List.length_nil]
    congr 2
    omega

/-- Witness for claim C1 at a concrete refresh: one staged record, preserved
across the refresh. -/
theorem claim_C1_witness :
    refreshStatus [GitFile.mk "modified" "a.txt" true] 0 [GitFile.mk "modified" "a.txt" true] =
      some ([GitFile.mk "modified" "a.txt" true], 0) := by
  have h := (claim_C1_refresh_anchor [GitFile.mk "modified" "a.txt" true]
    [GitFile.mk "modified" "a.txt" true] 0
    (by intro f hf; simp only [List.mem_singleton] at hf; subst hf; decide)
    (by decide)).1
  exact h 0 (by decide) (by decide) (by omega)

lemma findIdx?_lt_length {α : Type} {l : List α} {p : α → Bool} {i : Nat}
    (h : l.findIdx? p = some i) : i < l.length := by
  rw [List.findIdx?_eq_some_iff_getElem] at h
  exact h.1

lemma cursorUp_inv (files : List GitFile) (c : Int) (h : cursorInv files c) :
    cursorInv files (cursorUp c) := by
  unfold cursorInv at h ⊢
  unfold cursorUp
  split at h
  · rename_i hlen
    rw [if_pos hlen]
    split <;> omega
  · rename_i hlen
    rw [if_neg hlen]
    split <;> omega

lemma cursorDown_inv (files : List GitFile) (c : Int) (h : cursorInv files c) :
    cursorInv files (cursorDown files.length c) := by
  unfold cursorInv at h ⊢
  unfold cursorDown
  split at h
  · rename_i hlen
    rw [if_pos hlen, hlen]
    split <;> omega
  · rename_i hlen
    rw [if_neg hlen]
    split <;> omega

lemma pageUp_inv (files : List GitFile) (page c : Int) (hp : 0 ≤ page)
    (h : cursorInv files c) : cursorInv files (pageUp page c) := by
  unfold cursorInv at h ⊢
  unfold pageUp
  split at h
  · rename_i hlen
    rw [if_pos hlen]
    omega
  · rename_i hlen
    rw [if_neg hlen]
    omega

lemma pageDown_inv (files : List GitFile) (page c : Int) (hp : 0 ≤ page)
    (hne : files ≠ []) (h : cursorInv files c) :
    cursorInv files (pageDown files.length page c) := by
  have hlen : files.length ≠ 0 := fun hh => hne (List.length_eq_zero.mp hh)
  unfold cursorInv at h ⊢
  rw [if_neg hlen] at h ⊢
  unfold pageDown
  omega

lemma toggleFinish_bound {c : Int} (hc : 0 ≤ c) (newOrdered : List GitFile)
    (k : Option (String × Bool)) :
    (newOrdered = [] → toggleFinish c newOrdered k = 0) ∧
    (newOrdered ≠ [] → 0 ≤ toggleFinish c newOrdered k ∧
      toggleFinish c newOrdered k < (newOrdered.length : Int)) := by
  constructor
  · intro h
    subst h
    simp [toggleFinish]
  · intro hne
    have hlen : newOrdered.length ≠ 0 := fun hh => hne (List.length_eq_zero.mp hh)
    unfold toggleFinish
    rw [if_neg hlen]
    cases k with
    | none =>
      dsimp only
      omega
    | some key =>
      dsimp only
      cases hfind : newOrdered.findIdx? (fun f => f.key == key) with
      | none =>
        dsimp only
        omega
      | some i =>
        have hi := findIdx?_lt_length hfind
        dsimp only
        omega

lemma inv_of_toggleFinish {newFiles : List GitFile} (hWFn : WellFormed newFiles)
    (cn : Nat) (k : Option (String × Bool)) :
    cursorInv newFiles (toggleFinish (cn : Int) (getOrderedFiles newFiles) k) := by
  have hb := toggleFinish_bound (Int.natCast_nonneg cn) (getOrderedFiles newFiles) k
  unfold cursorInv
  by_cases hlen : newFiles.length = 0
  · rw [if_pos hlen]
    apply hb.1
    have : (getOrderedFiles newFiles).length = 0 := by
      rw [getOrdered_length_eq hWFn, hlen]
    exact List.length_eq_zero.mp this
  · rw [if_neg hlen]
    have hne : getOrderedFiles newFiles ≠ [] := by
      intro hh
      apply hlen
      rw [← getOrdered_length_eq hWFn, hh]
      rfl
    have := hb.2 hne
    rwa [getOrdered_length_eq hWFn] at this

lemma toggleStage_valid {files newFiles : List GitFile} {cn : Nat}
    (hn : cn < (getOrderedFiles files).length) :
    toggleStage files (cn : Int) newFiles =
      some (newFiles, toggleFinish (cn : Int) (getOrderedFiles newFiles)
        (if h : cn + 1 < (getOrderedFiles files).length
         then some ((getOrderedFiles files).get ⟨cn + 1, h⟩).key else none)) := by
  unfold toggleStage
  have hguard : ¬ (((getOrderedFiles files).length : Int) ≤ (cn : Int)) := by
    rw [not_le]
    exact_mod_cast hn
  rw [if_neg hguard, pyGet_valid hn]
  dsimp only
  by_cases h1 : cn + 1 < (getOrderedFiles files).length
  · have h1i : (cn : Int) + 1 < ((getOrderedFiles files).length : Int) := by
      exact_mod_cast h1
    rw [if_pos h1i, dif_pos h1]
    have hcast : (cn : Int) + 1 = ((cn + 1 : Nat) : Int) := by push_cast; ring
    rw [hcast, pyGet_valid h1]
  · have h1i : ¬ ((cn : Int) + 1 < ((getOrderedFiles files).length : Int)) := by
      rw [not_lt]
      rw [not_lt] at h1
      exact_mod_cast h1
    rw [if_neg h1i, dif_neg h1]

lemma toggleStage_inv (files newFiles : List GitFile) (c : Int)
    (hWFf : WellFormed files) (hWFn : WellFormed newFiles) (h : cursorInv files c) :
    ∃ fs cN, toggleStage files c newFiles = some (fs, cN) ∧ cursorInv fs cN := by
  by_cases hlen : files.length = 0
  · have hc : c = 0 := by
      unfold cursorInv at h
      rwa [if_pos hlen] at h
    have hOrd : ((getOrderedFiles files).length : Int) ≤ c := by
      rw [getOrdered_length_eq hWFf, hlen, hc]
      exact le_refl 0
    refine ⟨files, c, ?_, h⟩
    unfold toggleStage
    rw [if_pos hOrd]
  · have hc : 0 ≤ c ∧ c < (files.length : Int) := by
      unfold cursorInv at h
      rwa [if_neg hlen] at h
    obtain ⟨cn, rfl⟩ : ∃ n : Nat, c = (n : Int) := ⟨c.toNat, (Int.toNat_of_nonneg hc.1).symm⟩
    have hcn : cn < (getOrderedFiles files).length := by
      rw [getOrdered_length_eq hWFf]
      exact_mod_cast hc.2
    refine ⟨newFiles, _, toggleStage_valid hcn, ?_⟩
    exact inv_of_toggleFinish hWFn cn _

lemma refreshStatus_bound (files newFiles : List GitFile) (c : Int)
    (fs : List GitFile) (cN : Int) (hWFn : WellFormed newFiles)
    (h : refreshStatus files c newFiles = some (fs, cN)) :
    fs = newFiles ∧ 0 ≤ cN ∧ cN < max (newFiles.length : Int) 1 := by
  unfold refreshStatus at h
  dsimp only at h
  split at h
  · cases hpg : pyGet (getOrderedFiles files) c with
    | none => rw [hpg] at h; simp at h
    | some f =>
      rw [hpg] at h
      dsimp only at h
      cases hfind : (getOrderedFiles newFiles).findIdx? (fun g => g.key == f.key) with
      | some i =>
        rw [hfind] at h
        have hi := findIdx?_lt_length hfind
        rw [getOrdered_length_eq hWFn] at hi
        injection h with h1
        injection h1 with h2 h3
        subst h2
        refine ⟨rfl, ?_, ?_⟩ <;> omega
      | none =>
        rw [hfind] at h
        injection h with h1
        injection h1 with h2 h3
        subst h2
        have hlen := getOrdered_length_eq hWFn
        refine ⟨rfl, ?_, ?_⟩ <;> omega
  · injection h with h1
    injection h1 with h2 h3
    subst h2
    refine ⟨rfl, ?_, ?_⟩ <;> omega

lemma stageAll_inv (files newFiles : List GitFile) (c : Int) (h : cursorInv files c) :
    cursorInv (stageAll files c newFiles).1 (stageAll files c newFiles).2 := by
  unfold stageAll
  split
  · exact h
  · unfold cursorInv
    split
    · rfl
    · rename_i hlen
      constructor
      · exact le_refl 0
      · omega

lemma discard_inv (files newFiles : List GitFile) (c : Int) (confirmed : Bool)
    (hWFf : WellFormed files) (hWFn : WellFormed newFiles) (h : cursorInv files c) :
    ∃ fs cN, discardCurrent files c confirmed newFiles = some (fs, cN) ∧ cursorInv fs cN := by
  by_cases hlen : files.length = 0
  · have hc : c = 0 := by
      unfold cursorInv at h
      rwa [if_pos hlen] at h
    have hOrd : ((getOrderedFiles files).length : Int) ≤ c := by
      rw [getOrdered_length_eq hWFf, hlen, hc]
      exact le_refl 0
    refine ⟨files, c, ?_, h⟩
    unfold discardCurrent
    rw [if_pos hOrd]
  · have hc : 0 ≤ c ∧ c < (files.length : Int) := by
      unfold cursorInv at h
      rwa [if_neg hlen] at h
    obtain ⟨cn, rfl⟩ : ∃ n : Nat, c = (n : Int) := ⟨c.toNat, (Int.toNat_of_nonneg hc.1).symm⟩
    have hcn : cn < (getOrderedFiles files).length := by
      rw [getOrdered_length_eq hWFf]
      exact_mod_cast hc.2
    have hguard : ¬ (((getOrderedFiles files).length : Int) ≤ (cn : Int)) := by
      rw [not_le]
      exact_mod_cast hcn
    unfold discardCurrent
    rw [if_neg hguard, pyGet_valid hcn]
    dsimp only
    set file := (getOrderedFiles files).get ⟨cn, hcn⟩ with hfile
    by_cases hstaged : file.staged = true
    · simp only [hstaged, if_true]
      exact ⟨files, (cn : Int), rfl, h⟩
    · rw [if_neg hstaged]
      by_cases huntr : (file.status == "untracked") = true
      · rw [if_pos huntr]
        exact ⟨files, (cn : Int), rfl, h⟩
      · rw [if_neg huntr]
        cases confirmed with
        | false =>
          simp only [Bool.not_false, if_true]
          exact ⟨files, (cn : Int), rfl, h⟩
        | true =>
          simp only [Bool.not_true, Bool.false_eq_true, if_false]
          by_cases hlen2 : (getOrderedFiles newFiles).length = 0
          · rw [if_pos hlen2]
            refine ⟨newFiles, 0, rfl, ?_⟩
            unfold cursorInv
            rw [if_pos (by rw [← getOrdered_length_eq hWFn]; exact hlen2)]
          · rw [if_neg hlen2]
            refine ⟨newFiles, _, rfl, ?_⟩
            unfold cursorInv
            have hlenn : newFiles.length ≠ 0 := by
              rw [← getOrdered_length_eq hWFn]
              exact hlen2
            rw [if_neg hlenn]
            have := getOrdered_length_eq hWFn
            omega

lemma commit_inv (files newFiles : List GitFile) (c : Int) (editorOk : Bool)
    (msg : String) (rc : Int) (h : cursorInv files c) :
    cursorInv (commitAction files c editorOk msg rc newFiles).1
      (commitAction files c editorOk msg rc newFiles).2 := by
  unfold commitAction
  split
  · exact h
  · split
    · exact h
    · split
      · exact h
      · split
        · unfold cursorInv
          split
          · rfl
          · rename_i hlen
            exact ⟨le_refl 0, by omega⟩
        · exact h

/-- Claim C2, as amended: cursor up/down, toggle, refresh/replace, stage-all,
discard and commit preserve the cursor invariant; page-up needs a
non-negative page size, and page-down additionally a non-empty record list
(on an empty list it sets the cursor to -1, see the counterexample).
Whenever `_refresh_status` completes, the new cursor satisfies
`0 ≤ cursor < max(n, 1)` for a replacement list of length `n`, regardless of
the prior cursor. -/
theorem claim_C2_cursor_invariant :
    (∀ (files : List GitFile) (c : Int), cursorInv files c →
      cursorInv files (cursorUp c)) ∧
    (∀ (files : List GitFile) (c : Int), cursorInv files c →
      cursorInv files (cursorDown files.length c)) ∧
    (∀ (files : List GitFile) (page c : Int), 0 ≤ page → cursorInv files c →
      cursorInv files (pageUp page c)) ∧
    (∀ (files : List GitFile) (page c : Int), 0 ≤ page → files ≠ [] → cursorInv files c →
      cursorInv files (pageDown files.length page c)) ∧
    (∀ (files newFiles : List GitFile) (c : Int), WellFormed files → WellFormed newFiles →
      cursorInv files c →
      ∃ fs cN, toggleStage files c newFiles = some (fs, cN) ∧ cursorInv fs cN) ∧
    (∀ (files newFiles : List GitFile) (c : Int) (fs : List GitFile) (cN : Int),
      WellFormed newFiles → refreshStatus files c newFiles = some (fs, cN) →
      fs = newFiles ∧ 0 ≤ cN ∧ cN < max (newFiles.length : Int) 1) ∧
    (∀ (files newFiles : List GitFile) (c : Int), cursorInv files c →
      cursorInv (stageAll files c newFiles).1 (stageAll files c newFiles).2) ∧
    (∀ (files newFiles : List GitFile) (c : Int) (confirmed : Bool),
      WellFormed files → WellFormed newFiles → cursorInv files c →
      ∃ fs cN, discardCurrent files c confirmed newFiles = some (fs, cN) ∧ cursorInv fs cN) ∧
    (∀ (files newFiles : List GitFile) (c : Int) (editorOk : Bool) (msg : String) (rc : Int),
      cursorInv files c →
      cursorInv (commitAction files c editorOk msg rc newFiles).1
        (commitAction files c editorOk msg rc newFiles).2) :=
  ⟨cursorUp_inv, cursorDown_inv, pageUp_inv, pageDown_inv, toggleStage_inv,
    refreshStatus_bound, stageAll_inv, discard_inv, commit_inv⟩

/-- Counterexample to claim C2 as stated: page-down on an empty record list
(reachable whenever the working tree is clean) drives the cursor to -1
instead of keeping it clamped to 0. -/
theorem claim_C2_counterexample :
    cursorInv ([] : List GitFile) 0 ∧
    pageDown ([] : List GitFile).length 10 0 = -1 ∧
    ¬ cursorInv ([] : List GitFile) (pageDown ([] : List GitFile).length 10 0) := by
  refine ⟨?_, ?_, ?_⟩ <;> norm_num [cursorInv, pageDown]

/-- Witness for claim C2 at a concrete state: cursor-up from position 0 of a
one-element list keeps the invariant. -/
theorem claim_C2_witness :
    cursorInv [GitFile.mk "modified" "a.txt" true] 0 ∧
      cursorInv [GitFile.mk "modified" "a.txt" true] (cursorUp 0) := by
  have h0 : cursorInv [GitFile.mk "modified" "a.txt" true] 0 := by
    norm_num [cursorInv]
  exact ⟨h0, claim_C2_cursor_invariant.1 _ 0 h0⟩

/-- Claim C3: after toggling the selected file, the cursor lands on the
first post-mutation position of the record that was immediately below it
(its remembered `(path, staged)` key); when that key is absent or there was
no file below, the cursor is clamped against the new last index; an empty
re-derived list resets it to 0. -/
theorem claim_C3_toggle_advance (files newFiles : List GitFile) (cn : Nat)
    (hn : cn < (getOrderedFiles files).length) :
    (∀ (hnext : cn + 1 < (getOrderedFiles files).length),
      (getOrderedFiles newFiles = [] →
        toggleStage files (cn : Int) newFiles = some (newFiles, 0)) ∧
      (∀ i (hi : i < (getOrderedFiles newFiles).length),
        ((getOrderedFiles newFiles).get ⟨i, hi⟩).key =
            ((getOrderedFiles files).get ⟨cn + 1, hnext⟩).key →
        (∀ j (hj : j < i), ((getOrderedFiles newFiles).get ⟨j, hj.trans hi⟩).key ≠
            ((getOrderedFiles files).get ⟨cn + 1, hnext⟩).key) →
        toggleStage files (cn : Int) newFiles = some (newFiles, (i : Int))) ∧
      ((∀ g ∈ getOrderedFiles newFiles,
          g.key ≠ ((getOrderedFiles files).get ⟨cn + 1, hnext⟩).key) →
        getOrderedFiles newFiles ≠ [] →
        toggleStage files (cn : Int) newFiles =
          some (newFiles, min (cn : Int) (((getOrderedFiles newFiles).length : Int) - 1)))) ∧
    (¬ (cn + 1 < (getOrderedFiles files).length) →
      (getOrderedFiles newFiles = [] →
        toggleStage files (cn : Int) newFiles = some (newFiles, 0)) ∧
      (getOrderedFiles newFiles ≠ [] →
        toggleStage files (cn : Int) newFiles =
          some (newFiles, min (cn : Int) (((getOrderedFiles newFiles).length : Int) - 1)))) := by
  constructor
  · intro hnext
    have hval := @toggleStage_valid files newFiles cn hn
    rw [dif_pos hnext] at hval
    refine ⟨?_, ?_, ?_⟩
    · intro hempty
      rw [hval, hempty]
      simp [toggleFinish]
    · intro i hi hk hmin
      rw [hval]
      unfold toggleFinish
      rw [if_neg (by omega)]
      dsimp only
      rw [findIdx?_key_of_first hi hk hmin]
    · intro habs hne
      rw [hval]
      unfold toggleFinish
      have hlen2 : (getOrderedFiles newFiles).length ≠ 0 :=
        fun hh => hne (List.length_eq_zero.mp hh)
      rw [if_neg hlen2]
      dsimp only
      rw [findIdx?_key_of_absent habs]
  · intro hnext
    have hval := @toggleStage_valid files newFiles cn hn
    rw [dif_neg hnext] at hval
    constructor
    · intro hempty
      rw [hval, hempty]
      simp [toggleFinish]
    · intro hne
      rw [hval]
      unfold toggleFinish
      have hlen2 : (getOrderedFiles newFiles).length ≠ 0 :=
        fun hh => hne (List.length_eq_zero.mp hh)
      rw [if_neg hlen2]

/-- Witness for claim C3: staging the first of two unstaged files moves the
cursor to the new position of the file that was below it. -/
theorem claim_C3_witness :
    toggleStage [GitFile.mk "modified" "a.txt" false, GitFile.mk "modified" "b.txt" false] 0
      [GitFile.mk "modified" "a.txt" true, GitFile.mk "modified" "b.txt" false] =
    some ([GitFile.mk "modified" "a.txt" true, GitFile.mk "modified" "b.txt" false], 1) := by
  have hn : 0 < (getOrderedFiles
      [GitFile.mk "modified" "a.txt" false, GitFile.mk "modified" "b.txt" false]).length := by
    decide
  have hnext : 0 + 1 < (getOrderedFiles
      [GitFile.mk "modified" "a.txt" false, GitFile.mk "modified" "b.txt" false]).length := by
    decide
  have hi : 1 < (getOrderedFiles
      [GitFile.mk "modified" "a.txt" true, GitFile.mk "modified" "b.txt" false]).length := by
    decide
  have h := ((claim_C3_toggle_advance
    [GitFile.mk "modified" "a.txt" false, GitFile.mk "modified" "b.txt" false]
    [GitFile.mk "modified" "a.txt" true, GitFile.mk "modified" "b.txt" false]
    0 hn).1 hnext).2.1 1 hi
  have h1 := h rfl
    (by intro j hj
        have hj0 : j = 0 := by omega
        subst hj0
        show (("a.txt", true) : String × Bool) ≠ ("b.txt", false)
        decide)
  exact_mod_cast h1

/-! The debounced change watcher (igs.py `_check_watcher`, lines 117-154).
Wall-clock timestamps are modelled as rationals (seconds); the drained
inotify data of one poll is abstracted to the boolean `has_events`. -/

/-- Embeds the watcher state of `GitTUI`: `last_refresh_time` (initially 0)
and `events_during_cooldown`. -/
structure WatcherState where
  lastRefreshTime : Rat
  eventsDuringCooldown : Bool
deriving DecidableEq, Repr

/-- Embeds `cooldown = 0.2` (200 ms) in `_check_watcher`. -/
def COOLDOWN : Rat := 1 / 5

/-- Embeds one call of `GitTUI._check_watcher`: returns the successor state
and whether `_refresh_status` was triggered.  `in_cooldown` is
`now - last_refresh_time < COOLDOWN`; the refresh timestamp is modelled by
`now` itself (the Python code re-reads the clock directly after the refresh,
which can only be later, so spacing bounds proved here are conservative). -/
def checkWatcher (s : WatcherState) (now : Rat) (hasEvents : Bool) : WatcherState × Bool :=
  if hasEvents then
    if COOLDOWN ≤ now - s.lastRefreshTime then (⟨now, false⟩, true)
    else (⟨s.lastRefreshTime, true⟩, false)
  else if s.eventsDuringCooldown = true ∧ COOLDOWN ≤ now - s.lastRefreshTime then
    (⟨now, false⟩, true)
  else (s, false)

/-- Runs `_check_watcher` over a trace of poll times paired with the event
observation of that poll; returns the final state and the times at which a
refresh was triggered. -/
def runWatcher (s : WatcherState) : List (Rat × Bool) → WatcherState × List Rat
  | [] => (s, [])
  | (t, ev) :: rest =>
    let step := checkWatcher s t ev
    let tail := runWatcher step.1 rest
    (tail.1, (if step.2 then [t] else []) ++ tail.2)

lemma checkWatcher_fire_of_events {s : WatcherState} {now : Rat}
    (hcool : COOLDOWN ≤ now - s.lastRefreshTime) :
    checkWatcher s now true = (⟨now, false⟩, true) := by
  unfold checkWatcher
  rw [if_pos rfl, if_pos hcool]

lemma checkWatcher_swallow {s : WatcherState} {now : Rat}
    (hcool : ¬ COOLDOWN ≤ now - s.lastRefreshTime) :
    checkWatcher s now true = (⟨s.lastRefreshTime, true⟩, false) := by
  unfold checkWatcher
  rw [if_pos rfl, if_neg hcool]

lemma checkWatcher_trailing {s : WatcherState} {now : Rat}
    (hpend : s.eventsDuringCooldown = true) (hcool : COOLDOWN ≤ now - s.lastRefreshTime) :
    checkWatcher s now false = (⟨now, false⟩, true) := by
  unfold checkWatcher
  rw [if_neg (by simp), if_pos ⟨hpend, hcool⟩]

lemma checkWatcher_idle {s : WatcherState} {now : Rat}
    (h : ¬ (s.eventsDuringCooldown = true ∧ COOLDOWN ≤ now - s.lastRefreshTime)) :
    checkWatcher s now false = (s, false) := by
  unfold checkWatcher
  rw [if_neg (by simp), if_neg h]

lemma runWatcher_cons (s : WatcherState) (t : Rat) (ev : Bool) (rest : List (Rat × Bool)) :
    runWatcher s ((t, ev) :: rest) =
      ((runWatcher (checkWatcher s t ev).1 rest).1,
        (if (checkWatcher s t ev).2 then [t] else []) ++
          (runWatcher (checkWatcher s t ev).1 rest).2) := rfl

lemma runWatcher_chain (trace : List (Rat × Bool)) (s : WatcherState) :
    List.Chain (fun a b => COOLDOWN ≤ b - a) s.lastRefreshTime (runWatcher s trace).2 := by
  induction trace generalizing s with
  | nil => simp [runWatcher]
  | cons head rest ih =>
    obtain ⟨t, ev⟩ := head
    rw [runWatcher_cons]
    cases ev with
    | true =>
      by_cases hcool : COOLDOWN ≤ t - s.lastRefreshTime
      · rw [checkWatcher_fire_of_events hcool]
        simp only [if_true, List.singleton_append]
        exact List.Chain.cons hcool (ih ⟨t, false⟩)
      · rw [checkWatcher_swallow hcool]
        simp only [Bool.false_eq_true, if_false, List.nil_append]
        exact ih ⟨s.lastRefreshTime, true⟩
    | false =>
      by_cases hfire : s.eventsDuringCooldown = true ∧ COOLDOWN ≤ t - s.lastRefreshTime
      · rw [checkWatcher_trailing hfire.1 hfire.2]
        simp only [if_true, List.singleton_append]
        exact List.Chain.cons hfire.2 (ih ⟨t, false⟩)
      · rw [checkWatcher_idle hfire]
        simp only [Bool.false_eq_true, if_false, List.nil_append]
        exact ih s

/-- Claim C4: the watcher's debounce guarantees.  Conjunct 1: over any trace
of checks, consecutive triggered refreshes are at least one `COOLDOWN`
apart (at most one refresh per cooldown window).  Conjunct 2: events outside
the cooldown trigger an immediate (leading-edge) refresh.  Conjunct 3: a
check inside the cooldown never refreshes; it keeps the refresh timestamp
and records pending events.  Conjunct 4: once the cooldown has expired, a
check with the pending flag set triggers exactly one trailing refresh and
clears the flag. -/
theorem claim_C4_watcher_debounce :
    (∀ (s : WatcherState) (trace : List (Rat × Bool)),
      List.Pairwise (fun a b => COOLDOWN ≤ b - a) (runWatcher s trace).2) ∧
    (∀ (s : WatcherState) (now : Rat), COOLDOWN ≤ now - s.lastRefreshTime →
      checkWatcher s now true = (⟨now, false⟩, true)) ∧
    (∀ (s : WatcherState) (now : Rat) (ev : Bool), now - s.lastRefreshTime < COOLDOWN →
      (checkWatcher s now ev).2 = false ∧
      (checkWatcher s now ev).1.lastRefreshTime = s.lastRefreshTime ∧
      (checkWatcher s now ev).1.eventsDuringCooldown = (s.eventsDuringCooldown || ev)) ∧
    (∀ (s : WatcherState) (now : Rat) (ev : Bool), s.eventsDuringCooldown = true →
      COOLDOWN ≤ now - s.lastRefreshTime →
      checkWatcher s now ev = (⟨now, false⟩, true)) := by
  have hC : (0 : Rat) ≤ COOLDOWN := by norm_num [COOLDOWN]
  refine ⟨?_, ?_, ?_, ?_⟩
  · intro s trace
    haveI : IsTrans Rat (fun a b => COOLDOWN ≤ b - a) :=
      ⟨fun a b c hab hbc => by
        have h1 : COOLDOWN ≤ b - a := hab
        have h2 : COOLDOWN ≤ c - b := hbc
        show COOLDOWN ≤ c - a
        linarith⟩
    have hchain := runWatcher_chain trace s
    exact (List.chain_iff_pairwise.mp hchain).of_cons
  · intro s now hcool
    exact checkWatcher_fire_of_events hcool
  · intro s now ev hcool
    have hnot : ¬ COOLDOWN ≤ now - s.lastRefreshTime := not_le.mpr hcool
    cases ev with
    | true =>
      rw [checkWatcher_swallow hnot]
      simp
    | false =>
      rw [checkWatcher_idle (by intro hh; exact hnot hh.2)]
      simp
  · intro s now ev hpend hcool
    cases ev with
    | true => exact checkWatcher_fire_of_events hcool
    | false => exact checkWatcher_trailing hpend hcool

/-- Witness for claim C4: from the initial state, an event observed at time
1 (outside the cooldown) triggers an immediate refresh. -/
theorem claim_C4_witness :
    COOLDOWN ≤ (1 : Rat) - (0 : Rat) ∧
      checkWatcher ⟨0, false⟩ 1 true = (⟨1, false⟩, true) := by
  have hcool : COOLDOWN ≤ (1 : Rat) - (0 : Rat) := by norm_num [COOLDOWN]
  exact ⟨hcool, claim_C4_watcher_debounce.2.1 ⟨0, false⟩ 1 hcool⟩

/-! The list view's scroll reconciliation.  `draw_file_list` builds a list
of display lines; only the per-line file index and recorded section start
matter here, so a display line is modelled as that pair (`none` marks
headers, blanks and other non-file lines). -/

/-- Embeds the `for f in ...: display_lines.append((f, None, file_index,
section_start)); file_index += 1` loops of igs.py `draw_file_list`. -/
def fileLines (start sec : Nat) : List GitFile → List (Option Nat × Option Nat)
  | [] => []
  | _ :: fs => (some start, some sec) :: fileLines (start + 1) sec fs

/-- Embeds the display-line construction of igs.py `draw_file_list` (lines
376-402): all three section headers are always emitted, each group's files
carry the display-line index their header was appended at
(`section_start = len(display_lines)` before the header is pushed), and a
blank line follows the first two groups. -/
def displayLines (files : List GitFile) : List (Option Nat × Option Nat) :=
  let staged := files.filter fun f => f.staged
  let unstaged := files.filter fun f => !f.staged && f.status != "untracked"
  let untracked := files.filter fun f => f.status == "untracked"
  let l1 : List (Option Nat × Option Nat) :=
    [(none, none)] ++ fileLines 0 0 staged ++ [(none, none)]
  let l2 := l1 ++ [(none, none)] ++ fileLines staged.length l1.length unstaged ++ [(none, none)]
  l2 ++ [(none, none)] ++ fileLines (staged.length + unstaged.length) l2.length untracked

/-- Embeds the comparison `fidx == self.cursor_pos` of the cursor-locating
loop (`None == cursor` is false in Python). -/
def matchesCursor (cursor : Int) (e : Option Nat × Option Nat) : Bool :=
  match e.1 with
  | some k => (k : Int) == cursor
  | none => false

/-- Embeds the cursor-locating loop of igs.py `draw_file_list` (lines
406-412): scan for the first display line whose file index equals the
cursor, returning its display-line index and recorded section start; both
default to 0 when no line matches. -/
def findCursorLineAux (cursor : Int) :
    List (Option Nat × Option Nat) → Nat → Option (Nat × Nat)
  | [], _ => none
  | e :: rest, i =>
    if matchesCursor cursor e then
      some (i, match e.2 with | some sec => sec | none => i)
    else findCursorLineAux cursor rest (i + 1)

/-- The result of the cursor-locating loop, with the Python defaults
`cursor_display_line = 0`, `cursor_section_start = 0`. -/
def findCursorLine (lines : List (Option Nat × Option Nat)) (cursor : Int) : Nat × Nat :=
  match findCursorLineAux cursor lines 0 with
  | some p => p
  | none => (0, 0)

/-- Embeds the scroll-offset adjustment and final clamp of igs.py
`draw_file_list` (lines 414-420): scrolling up targets the section header's
display line, scrolling down keeps the cursor on the last visible row, and
the offset is clamped to `[0, max(0, len(display_lines) - visible_height)]`. -/
def reconcileList (files : List GitFile) (cursor off vis : Int) : Int :=
  let lines := displayLines files
  let cdl := ((findCursorLine lines cursor).1 : Int)
  let css := ((findCursorLine lines cursor).2 : Int)
  let off1 := if cdl < off then css
              else if off + vis ≤ cdl then cdl - vis + 1
              else off
  max 0 (min off1 (max 0 ((lines.length : Int) - vis)))

/-- Embeds the per-group file-line loops of git-tui.py `draw_file_list`
(only the file index is recorded; the older script keeps no section
starts). -/
def fileLinesTui (start : Nat) : List GitFile → List (Option Nat)
  | [] => []
  | _ :: fs => some start :: fileLinesTui (start + 1) fs

/-- Embeds the display-line construction of git-tui.py `draw_file_list`
(lines 226-254): headers and trailing blanks only for non-empty groups, and
a placeholder line when there are no files at all. -/
def displayLinesTui (files : List GitFile) : List (Option Nat) :=
  let staged := files.filter fun f => f.staged
  let unstaged := files.filter fun f => !f.staged && f.status != "untracked"
  let untracked := files.filter fun f => f.status == "untracked"
  (if staged.isEmpty then [] else [none] ++ fileLinesTui 0 staged ++ [none]) ++
  (if unstaged.isEmpty then [] else
    [none] ++ fileLinesTui staged.length unstaged ++ [none]) ++
  (if untracked.isEmpty then [] else
    [none] ++ fileLinesTui (staged.length + unstaged.length) untracked) ++
  (if files.isEmpty then [none] else [])

/-- Embeds the cursor-locating loop of git-tui.py `draw_file_list` (lines
258-262), default 0. -/
def findCursorLineTui (lines : List (Option Nat)) (cursor : Int) : Nat :=
  match lines.findIdx? (fun e => match e with
    | some k => (k : Int) == cursor
    | none => false) with
  | some i => i
  | none => 0

/-- Embeds the scroll-offset adjustment and clamp of git-tui.py
`draw_file_list` (lines 264-270): scrolling up targets the cursor's own
display line. -/
def reconcileListTui (files : List GitFile) (cursor off vis : Int) : Int :=
  let lines := displayLinesTui files
  let cdl := ((findCursorLineTui lines cursor) : Int)
  let off1 := if cdl < off then cdl
              else if off + vis ≤ cdl then cdl - vis + 1
              else off
  max 0 (min off1 (max 0 ((lines.length : Int) - vis)))

lemma fileLines_length (start sec : Nat) (l : List GitFile) :
    (fileLines start sec l).length = l.length := by
  induction l generalizing start with
  | nil => rfl
  | cons g gs ih =>
    unfold fileLines
    simp [ih]

lemma findCursorLineAux_append_none (cursor : Int) (A B : List (Option Nat × Option Nat))
    (i : Nat) (hA : ∀ e ∈ A, matchesCursor cursor e = false) :
    findCursorLineAux cursor (A ++ B) i = findCursorLineAux cursor B (i + A.length) := by
  induction A generalizing i with
  | nil => simp
  | cons e rest ih =>
    have he := hA e (List.mem_cons_self e rest)
    have hrest : ∀ x ∈ rest, matchesCursor cursor x = false :=
      fun x hx => hA x (List.mem_cons_of_mem e hx)
    rw [List.cons_append]
    show (if matchesCursor cursor e = true then
        some (i, match e.2 with | some sec => sec | none => i)
      else findCursorLineAux cursor (rest ++ B) (i + 1)) =
      findCursorLineAux cursor B (i + (e :: rest).length)
    rw [if_neg (by simp [he]), ih (i + 1) hrest]
    have hidx : i + 1 + rest.length = i + (e :: rest).length := by
      simp only [List.length_cons]
      omega
    rw [hidx]

lemma findCursorLineAux_fileLines (cn start sec : Nat) (l : List GitFile) (i : Nat) :
    findCursorLineAux (cn : Int) (fileLines start sec l) i =
      if start ≤ cn ∧ cn < start + l.length then some (i + (cn - start), sec) else none := by
  induction l generalizing start i with
  | nil =>
    unfold fileLines findCursorLineAux
    rw [if_neg (by simp only [List.length_nil]; omega)]
  | cons g gs ih =>
    unfold fileLines findCursorLineAux
    by_cases hc : start = cn
    · rw [if_pos (by simp [matchesCursor, hc])]
      rw [if_pos (by simp only [List.length_cons]; omega)]
      subst hc
      simp
    · rw [if_neg (by simp [matchesCursor]; omega)]
      rw [ih (start + 1) (i + 1)]
      by_cases hin : start + 1 ≤ cn ∧ cn < start + 1 + gs.length
      · rw [if_pos hin, if_pos (by simp only [List.length_cons]; omega)]
        simp only [Option.some.injEq, Prod.mk.injEq, and_true]
        omega
      · rw [if_neg hin, if_neg (by simp only [List.length_cons]; omega)]

lemma matchesCursor_header (cursor : Int) :
    matchesCursor cursor ((none, none) : Option Nat × Option Nat) = false := rfl

lemma displayLines_length (files : List GitFile) :
    (displayLines files).length =
      (files.filter fun f => f.staged).length +
      (files.filter fun f => !f.staged && f.status != "untracked").length +
      (files.filter fun f => f.status == "untracked").length + 5 := by
  unfold displayLines
  simp only [List.length_append, List.length_cons, List.length_nil, fileLines_length]
  omega

lemma findCursorLineAux_append (cursor : Int) (A B : List (Option Nat × Option Nat))
    (i : Nat) :
    findCursorLineAux cursor (A ++ B) i =
      Option.or (findCursorLineAux cursor A i) (findCursorLineAux cursor B (i + A.length)) := by
  induction A generalizing i with
  | nil => simp [findCursorLineAux]
  | cons e rest ih =>
    rw [List.cons_append]
    show (if matchesCursor cursor e = true then
        some (i, match e.2 with | some sec => sec | none => i)
      else findCursorLineAux cursor (rest ++ B) (i + 1)) =
      Option.or
        (if matchesCursor cursor e = true then
          some (i, match e.2 with | some sec => sec | none => i)
        else findCursorLineAux cursor rest (i + 1))
        (findCursorLineAux cursor B (i + (e :: rest).length))
    by_cases hm : matchesCursor cursor e = true
    · rw [if_pos hm, if_pos hm]
      rfl
    · rw [if_neg hm, if_neg hm, ih]
      have hidx : i + 1 + rest.length = i + (e :: rest).length := by
        simp only [List.length_cons]
        omega
      rw [hidx]

lemma findCursorLineAux_header (cursor : Int) (i : Nat) :
    findCursorLineAux cursor [(none, none)] i = none := rfl

/-- Characterizes the cursor-locating loop of igs.py for a valid cursor:
the located display line is at or after its recorded section start, and
lies within the display list. -/
lemma findCursorLine_spec (files : List GitFile) (cn : Nat)
    (hcn : cn < (getOrderedFiles files).length) :
    ((findCursorLine (displayLines files) (cn : Int)).2 ≤
        (findCursorLine (displayLines files) (cn : Int)).1) ∧
      (findCursorLine (displayLines files) (cn : Int)).1 < (displayLines files).length := by
  have hord : (getOrderedFiles files).length =
      (files.filter fun f => f.staged).length +
      ((files.filter fun f => !f.staged && f.status != "untracked").length +
      (files.filter fun f => f.status == "untracked").length) := by
    unfold getOrderedFiles
    simp [List.length_append]
  have htot := displayLines_length files
  rw [hord] at hcn
  have haux : findCursorLineAux (cn : Int) (displayLines files) 0 =
      if cn < (files.filter fun f => f.staged).length then some (1 + cn, 0)
      else if cn < (files.filter fun f => f.staged).length +
          (files.filter fun f => !f.staged && f.status != "untracked").length then
        some ((files.filter fun f => f.staged).length + 3 +
            (cn - (files.filter fun f => f.staged).length),
          (files.filter fun f => f.staged).length + 2)
      else
        some ((files.filter fun f => f.staged).length +
            (files.filter fun f => !f.staged && f.status != "untracked").length + 5 +
            (cn - ((files.filter fun f => f.staged).length +
              (files.filter fun f => !f.staged && f.status != "untracked").length)),
          (files.filter fun f => f.staged).length +
            (files.filter fun f => !f.staged && f.status != "untracked").length + 4) := by
    unfold displayLines
    simp only [findCursorLineAux_append, findCursorLineAux_header,
      findCursorLineAux_fileLines, List.length_append, List.length_cons,
      List.length_nil, fileLines_length, Option.none_or, Option.or_none]
    split_ifs <;>
      simp_all only [Option.or_some, Option.none_or, Option.or_none,
        Option.some.injEq, Prod.mk.injEq, and_false, false_and, and_true, true_and] <;>
      first
        | trivial
        | omega
        | (constructor <;> first | omega | trivial)
        | (exfalso; omega)
  unfold findCursorLine
  rw [haux]
  split_ifs with h1 h2
  · dsimp only
    omega
  · dsimp only
    omega
  · dsimp only
    omega

/-- Claim C5, as amended: when the cursor's display line is strictly above
the current scroll offset, igs.py sets the new offset to the display-line
index of the cursor's group header (then clamps it into range), which keeps
the header on-screen; the older git-tui.py instead sets it to the cursor's
own display line (see the counterexample). -/
theorem claim_C5_upward_header :
    (∀ (files : List GitFile) (cn : Nat) (off vis : Int),
      cn < (getOrderedFiles files).length →
      1 ≤ vis →
      (((findCursorLine (displayLines files) (cn : Int)).1 : Int) < off) →
      reconcileList files (cn : Int) off vis =
          max 0 (min ((findCursorLine (displayLines files) (cn : Int)).2 : Int)
            (max 0 (((displayLines files).length : Int) - vis))) ∧
        reconcileList files (cn : Int) off vis ≤
          ((findCursorLine (displayLines files) (cn : Int)).2 : Int) ∧
        ((findCursorLine (displayLines files) (cn : Int)).2 : Int) <
          reconcileList files (cn : Int) off vis + vis) ∧
    (∀ (files : List GitFile) (cursor off vis : Int),
      (((findCursorLineTui (displayLinesTui files) cursor) : Int) < off) →
      reconcileListTui files cursor off vis =
        max 0 (min ((findCursorLineTui (displayLinesTui files) cursor) : Int)
          (max 0 (((displayLinesTui files).length : Int) - vis)))) := by
  constructor
  · intro files cn off vis hcn hvis hup
    have hspec := findCursorLine_spec files cn hcn
    have heq : reconcileList files (cn : Int) off vis =
        max 0 (min ((findCursorLine (displayLines files) (cn : Int)).2 : Int)
          (max 0 (((displayLines files).length : Int) - vis))) := by
      unfold reconcileList
      dsimp only
      rw [if_pos hup]
    refine ⟨heq, ?_, ?_⟩ <;> rw [heq] <;> omega
  · intro files cursor off vis hup
    unfold reconcileListTui
    dsimp only
    rw [if_pos hup]

/-- Counterexample to claim C5 as stated: in git-tui.py, scrolling up to a
file in the middle of the staged group sets the offset to the cursor's own
display line (4), not the group header's line (0, a header/non-file line). -/
theorem claim_C5_counterexample :
    reconcileListTui
        [GitFile.mk "modified" "a" true, GitFile.mk "modified" "b" true,
         GitFile.mk "modified" "c" true, GitFile.mk "modified" "d" true,
         GitFile.mk "modified" "e" true, GitFile.mk "modified" "f" true] 3 6 2 = 4 ∧
      findCursorLineTui (displayLinesTui
        [GitFile.mk "modified" "a" true, GitFile.mk "modified" "b" true,
         GitFile.mk "modified" "c" true, GitFile.mk "modified" "d" true,
         GitFile.mk "modified" "e" true, GitFile.mk "modified" "f" true]) 3 = 4 ∧
      (displayLinesTui
        [GitFile.mk "modified" "a" true, GitFile.mk "modified" "b" true,
         GitFile.mk "modified" "c" true, GitFile.mk "modified" "d" true,
         GitFile.mk "modified" "e" true, GitFile.mk "modified" "f" true]).get? 0 =
        some none ∧
      reconcileListTui
        [GitFile.mk "modified" "a" true, GitFile.mk "modified" "b" true,
         GitFile.mk "modified" "c" true, GitFile.mk "modified" "d" true,
         GitFile.mk "modified" "e" true, GitFile.mk "modified" "f" true] 3 6 2 ≠ 0 := by
  refine ⟨by decide, by decide, by decide, by decide⟩

/-- Witness for claim C5 at a concrete upward scroll in igs.py: one staged
file, cursor on it (display line 1, header line 0), prior offset 2. -/
theorem claim_C5_witness :
    (0 : Nat) < (getOrderedFiles [GitFile.mk "modified" "a.txt" true]).length ∧
      reconcileList [GitFile.mk "modified" "a.txt" true] 0 2 1 ≤
        ((findCursorLine (displayLines [GitFile.mk "modified" "a.txt" true]) 0).2 : Int) := by
  refine ⟨by decide, ?_⟩
  exact (claim_C5_upward_header.1 [GitFile.mk "modified" "a.txt" true] 0 2 1
    (by decide) (by norm_num) (by decide)).2.1

/-- Claim C6, as amended: after igs.py's scroll reconciliation the cursor's
display line lies inside the viewport, provided the cursor is fewer than
`viewport_height` display lines below its group header; without that
proviso the upward rule can leave the cursor below the window (see the
counterexample). -/
theorem claim_C6_scroll_containment (files : List GitFile) (cn : Nat) (off vis : Int)
    (hcn : cn < (getOrderedFiles files).length)
    (hvis : 1 ≤ vis)
    (hnear : ((findCursorLine (displayLines files) (cn : Int)).1 : Int) -
        ((findCursorLine (displayLines files) (cn : Int)).2 : Int) < vis) :
    reconcileList files (cn : Int) off vis ≤
        ((findCursorLine (displayLines files) (cn : Int)).1 : Int) ∧
      ((findCursorLine (displayLines files) (cn : Int)).1 : Int) <
        reconcileList files (cn : Int) off vis + vis := by
  have hspec := findCursorLine_spec files cn hcn
  unfold reconcileList
  dsimp only
  split_ifs with hu hd <;> constructor <;> omega

/-- Counterexample to claim C6 as stated: three staged files, viewport of
height 2, cursor on the third file (display line 3), prior offset 4.  The
upward rule scrolls to the group header (line 0), so the reconciled offset
is 0 and the cursor's display line 3 is outside the window [0, 1]. -/
theorem claim_C6_counterexample :
    reconcileList [GitFile.mk "modified" "a" true, GitFile.mk "modified" "b" true,
        GitFile.mk "modified" "c" true] 2 4 2 = 0 ∧
      (findCursorLine (displayLines [GitFile.mk "modified" "a" true,
        GitFile.mk "modified" "b" true, GitFile.mk "modified" "c" true]) 2).1 = 3 ∧
      ¬(reconcileList [GitFile.mk "modified" "a" true, GitFile.mk "modified" "b" true,
          GitFile.mk "modified" "c" true] 2 4 2 ≤ 3 ∧
        (3 : Int) < reconcileList [GitFile.mk "modified" "a" true,
          GitFile.mk "modified" "b" true, GitFile.mk "modified" "c" true] 2 4 2 + 2) := by
  refine ⟨by decide, by decide, by decide⟩

/-- Witness for claim C6 at a concrete state: one staged file, cursor on it,
offset 0, viewport height 2; the cursor's display line 1 stays inside the
window. -/
theorem claim_C6_witness :
    ((0 : Nat) < (getOrderedFiles [GitFile.mk "modified" "a.txt" true]).length ∧
      ((findCursorLine (displayLines [GitFile.mk "modified" "a.txt" true]) 0).1 : Int) -
        ((findCursorLine (displayLines [GitFile.mk "modified" "a.txt" true]) 0).2 : Int) < 2) ∧
      reconcileList [GitFile.mk "modified" "a.txt" true] 0 0 2 ≤
        ((findCursorLine (displayLines [GitFile.mk "modified" "a.txt" true]) 0).1 : Int) := by
  refine ⟨⟨by decide, by decide⟩, ?_⟩
  exact (claim_C6_scroll_containment [GitFile.mk "modified" "a.txt" true] 0 0 2
    (by decide) (by norm_num) (by decide)).1

/-! The diff viewport (igs.py `draw_diff_view` lines 464-466 for the render
clamp, `_handle_diff_input` lines 797-823 for the scroll steps, and the
diff-opening branch of `_handle_list_input` lines 634-643). -/

/-- Embeds the render clamp of `draw_diff_view`:
`diff_scroll = max(0, min(diff_scroll, max(0, len(content) - visible)))`. -/
def clampDiffScroll (lineCount : Nat) (vis s : Int) : Int :=
  max 0 (min s (max 0 ((lineCount : Int) - vis)))

/-- Embeds the `KEY_UP` branch of `_handle_diff_input`. -/
def diffScrollUp (s : Int) : Int := max 0 (s - 1)

/-- Embeds the `KEY_DOWN` branch of `_handle_diff_input`. -/
def diffScrollDown (lineCount : Nat) (vis s : Int) : Int :=
  min (s + 1) (max 0 ((lineCount : Int) - vis))

/-- Embeds the `KEY_PPAGE` branch of `_handle_diff_input`. -/
def diffPageUp (vis s : Int) : Int := max 0 (s - vis)

/-- Embeds the `KEY_NPAGE` branch of `_handle_diff_input`. -/
def diffPageDown (lineCount : Nat) (vis s : Int) : Int :=
  min (s + vis) (max 0 ((lineCount : Int) - vis))

/-- Embeds the diff-opening branch of `_handle_list_input`: the content is
replaced wholesale and `diff_scroll` is reset to 0. -/
def openDiff (content : List String) : List String × Int := (content, 0)

/-! Error handling (igs.py `parse_git_status` lines 194-206 and `stage_file`
lines 271-277).  The relevant mutable state is the record list, the cursor
and the status message. -/

/-- The mutable state touched by the status re-derivation and the staging
commands. -/
structure TuiState where
  files : List GitFile
  cursorPos : Int
  statusMessage : String
deriving Repr

/-- Embeds `GitTUI.parse_git_status` as a state transformer, with the git
invocation abstracted by its observed return code / stdout / stderr: a
non-zero status only sets an error message and returns before touching
`self.files`; the cursor is never touched. -/
def parseGitStatusSt (st : TuiState) (rc : Int) (stdout stderr : String) : TuiState :=
  if rc ≠ 0 then { st with statusMessage := "Error: " ++ stderr }
  else { st with files := parseStatusOutput stdout }

/-- Embeds `GitTUI.stage_file`: only the status message is written,
regardless of the command's outcome. -/
def stageFileSt (st : TuiState) (rc : Int) (stderr path : String) : TuiState :=
  if rc = 0 then { st with statusMessage := "Staged: " ++ path }
  else { st with statusMessage := "Error staging: " ++ stderr }

lemma partitionGroups_eq {files : List GitFile} (h : WellFormed files) :
    partitionGroups files =
      (files.filter fun f => f.staged,
       files.filter fun f => !f.staged && f.status != "untracked",
       files.filter fun f => f.status == "untracked") := by
  induction files with
  | nil => rfl
  | cons f fs ih =>
    have hf := h f (List.mem_cons_self f fs)
    have hfs : WellFormed fs := fun g hg => h g (List.mem_cons_of_mem f hg)
    unfold partitionGroups
    rw [ih hfs]
    by_cases hstaged : f.staged = true
    · have huntr : (f.status == "untracked") = false := by
        rcases hst : f.status == "untracked" with _ | _
        · rfl
        · exact absurd ⟨hstaged, by simpa using hst⟩ hf
      simp [List.filter_cons, hstaged, huntr]
    · have hstaged' : f.staged = false := by simpa using hstaged
      by_cases huntr : (f.status == "untracked") = true
      · have hstatus : f.status = "untracked" := by simpa using huntr
        have hne : (f.status != "untracked") = false := by
          simp only [bne]
          simp [huntr]
        simp [List.filter_cons, hstaged', huntr, hne, hstatus]
      · have huntr' : (f.status == "untracked") = false := by simpa using huntr
        have hstatus : ¬ f.status = "untracked" := by simpa using huntr
        have hne : (f.status != "untracked") = true := by
          simp only [bne]
          simp [huntr']
        simp [List.filter_cons, hstaged', huntr', hne, hstatus]

/-- Claim C7: the flattened ordering puts the staged records first, then the
unstaged tracked records, then the untracked records, each group a
subsequence of the input (insertion order preserved, no sorting); it agrees
with the spec's stable three-way partition on well-formed lists, and a
partially staged file yields two entries with the staged one first. -/
theorem claim_C7_flattened_order :
    (∀ files : List GitFile, WellFormed files →
      getOrderedFiles files = orderedFilesSpec files) ∧
    (∀ files : List GitFile,
      ((files.filter fun f => f.staged).Sublist files ∧
       (files.filter fun f => !f.staged && f.status != "untracked").Sublist files ∧
       (files.filter fun f => f.status == "untracked").Sublist files)) ∧
    getOrderedFiles [GitFile.mk "modified" "a.txt" false, GitFile.mk "modified" "a.txt" true] =
      [GitFile.mk "modified" "a.txt" true, GitFile.mk "modified" "a.txt" false] := by
  refine ⟨?_, ?_, by decide⟩
  · intro files h
    unfold orderedFilesSpec
    rw [partitionGroups_eq h]
    rfl
  · intro files
    exact ⟨List.filter_sublist files, List.filter_sublist files, List.filter_sublist files⟩

/-- Witness for claim C7: the ordering of a concrete well-formed singleton
list agrees with the spec-side partition. -/
theorem claim_C7_witness :
    WellFormed [GitFile.mk "modified" "a.txt" true] ∧
      getOrderedFiles [GitFile.mk "modified" "a.txt" true] =
        orderedFilesSpec [GitFile.mk "modified" "a.txt" true] := by
  have hwf : WellFormed [GitFile.mk "modified" "a.txt" true] := by
    intro f hf
    simp only [List.mem_singleton] at hf
    subst hf
    decide
  exact ⟨hwf, claim_C7_flattened_order.1 _ hwf⟩

/-- Claim C8: the diff scroll is inside `[0, max(0, line_count - vis)]`
after the render clamp, and stays there after each of the four explicit
scroll steps applied to a clamped value, for any content length, any
non-negative viewport height and any prior scroll value; opening a diff
resets the scroll to 0. -/
theorem claim_C8_diff_scroll_bounds :
    (∀ (lineCount : Nat) (vis s : Int), 0 ≤ vis →
      (0 ≤ clampDiffScroll lineCount vis s ∧
        clampDiffScroll lineCount vis s ≤ max 0 ((lineCount : Int) - vis)) ∧
      (0 ≤ diffScrollUp (clampDiffScroll lineCount vis s) ∧
        diffScrollUp (clampDiffScroll lineCount vis s) ≤ max 0 ((lineCount : Int) - vis)) ∧
      (0 ≤ diffScrollDown lineCount vis (clampDiffScroll lineCount vis s) ∧
        diffScrollDown lineCount vis (clampDiffScroll lineCount vis s) ≤
          max 0 ((lineCount : Int) - vis)) ∧
      (0 ≤ diffPageUp vis (clampDiffScroll lineCount vis s) ∧
        diffPageUp vis (clampDiffScroll lineCount vis s) ≤ max 0 ((lineCount : Int) - vis)) ∧
      (0 ≤ diffPageDown lineCount vis (clampDiffScroll lineCount vis s) ∧
        diffPageDown lineCount vis (clampDiffScroll lineCount vis s) ≤
          max 0 ((lineCount : Int) - vis))) ∧
    (∀ content : List String, (openDiff content).2 = 0) := by
  constructor
  · intro lineCount vis s hvis
    unfold clampDiffScroll diffScrollUp diffScrollDown diffPageUp diffPageDown
    refine ⟨⟨?_, ?_⟩, ⟨?_, ?_⟩, ⟨?_, ?_⟩, ⟨?_, ?_⟩, ⟨?_, ?_⟩⟩ <;> omega
  · intro content
    rfl

/-- Witness for claim C8: an out-of-range prior scroll of 100 on 10 content
lines with viewport height 5 is clamped into range. -/
theorem claim_C8_witness :
    (0 : Int) ≤ 5 ∧ 0 ≤ clampDiffScroll 10 5 100 ∧
      clampDiffScroll 10 5 100 ≤ max 0 ((10 : Int) - 5) := by
  have h5 : (0 : Int) ≤ 5 := by norm_num
  exact ⟨h5, (claim_C8_diff_scroll_bounds.1 10 5 100 h5).1.1,
    (claim_C8_diff_scroll_bounds.1 10 5 100 h5).1.2⟩

/-- Claim C9: a failing status query leaves the record list and the cursor
untouched and surfaces only a status message; a failing stage command never
touches the record list or the cursor and only sets a status message. -/
theorem claim_C9_error_atomicity :
    (∀ (st : TuiState) (rc : Int) (out err : String), rc ≠ 0 →
      (parseGitStatusSt st rc out err).files = st.files ∧
      (parseGitStatusSt st rc out err).cursorPos = st.cursorPos ∧
      (parseGitStatusSt st rc out err).statusMessage = "Error: " ++ err) ∧
    (∀ (st : TuiState) (rc : Int) (err path : String),
      (stageFileSt st rc err path).files = st.files ∧
      (stageFileSt st rc err path).cursorPos = st.cursorPos ∧
      (rc ≠ 0 →
        (stageFileSt st rc err path).statusMessage = "Error staging: " ++ err)) := by
  constructor
  · intro st rc out err hrc
    unfold parseGitStatusSt
    rw [if_pos hrc]
    exact ⟨rfl, rfl, rfl⟩
  · intro st rc err path
    unfold stageFileSt
    by_cases hrc : rc = 0
    · rw [if_pos hrc]
      exact ⟨rfl, rfl, fun h => absurd hrc h⟩
    · rw [if_neg hrc]
      exact ⟨rfl, rfl, fun _ => rfl⟩

/-- Witness for claim C9: a failing status query (return code 1) leaves a
concrete state's record list unchanged. -/
theorem claim_C9_witness :
    (1 : Int) ≠ 0 ∧
      (parseGitStatusSt ⟨[GitFile.mk "modified" "a.txt" true], 0, ""⟩ 1 "" "boom").files =
        [GitFile.mk "modified" "a.txt" true] := by
  have h1 : (1 : Int) ≠ 0 := by norm_num
  exact ⟨h1, (claim_C9_error_atomicity.1
    ⟨[GitFile.mk "modified" "a.txt" true], 0, ""⟩ 1 "" "boom" h1).1⟩

/-- Claim C10: the parser never produces a record that is both staged and
`untracked`; for such well-formed records the three group predicates of the
flattened ordering are mutually exclusive and exhaustive, and the flattened
list is a permutation of the record list (same length, same multiset). -/
theorem claim_C10_parser_invariant :
    (∀ out : String, WellFormed (parseStatusOutput out)) ∧
    (∀ f : GitFile, ¬(f.staged = true ∧ f.status = "untracked") →
      ((f.staged || (!f.staged && f.status != "untracked") ||
          (f.status == "untracked")) = true ∧
       ¬(f.staged = true ∧ (!f.staged && f.status != "untracked") = true) ∧
       ¬(f.staged = true ∧ (f.status == "untracked") = true) ∧
       ¬((!f.staged && f.status != "untracked") = true ∧
          (f.status == "untracked") = true))) ∧
    (∀ files : List GitFile, WellFormed files →
      (getOrderedFiles files).Perm files ∧
      (getOrderedFiles files).length = files.length) := by
  refine ⟨parseStatusOutput_wf, ?_, ?_⟩
  · intro f hf
    cases hs : f.staged with
    | true =>
      have huntr : (f.status == "untracked") = false := by
        rcases hst : f.status == "untracked" with _ | _
        · rfl
        · exact absurd ⟨hs, by simpa using hst⟩ hf
      simp [hs, huntr, bne]
    | false =>
      cases hu : f.status == "untracked" with
      | true =>
        have hne : (f.status != "untracked") = false := by
          simp only [bne]
          simp [hu]
        simp [hs, hu, hne]
      | false =>
        have hne : (f.status != "untracked") = true := by
          simp only [bne]
          simp [hu]
        simp [hs, hu, hne]
  · intro files h
    exact ⟨getOrderedFiles_perm h, (getOrderedFiles_perm h).length_eq⟩

/-- Witness for claim C10: the flattened ordering of a concrete well-formed
list is a permutation of it. -/
theorem claim_C10_witness :
    WellFormed [GitFile.mk "modified" "a.txt" true] ∧
      (getOrderedFiles [GitFile.mk "modified" "a.txt" true]).Perm
        [GitFile.mk "modified" "a.txt" true] := by
  have hwf : WellFormed [GitFile.mk "modified" "a.txt" true] := by
    intro f hf
    simp only [List.mem_singleton] at hf
    subst hf
    decide
  exact ⟨hwf, (claim_C10_parser_invariant.2.2 _ hwf).1⟩

end IGS
